import Mathlib

/-!
Verification development for the FFMpeg-based video player
(`src/FFMpeg.cpp`).  The producer/consumer pipeline of
`GetVideoFrameThread` (Decode Worker) and `main`'s paced display loop
(Presentation Loop) is embedded as an explicit two-thread transition
system: one `Choice` per scheduler decision, state carried in `Sys`.
Counters are modelled as `Nat`; the C fields are `unsigned int`, so the
C guard `decoded - read < bufferSize` is embedded as
`read ≤ decoded ∧ decoded - read < bufferSize` (for `read > decoded`
the unsigned subtraction wraps and the C comparison is false, matching
the conjunction; this is exact for executions whose counters stay
below 2^32).
-/

/-- A container packet as the Decode Worker sees it.  `isVideo` mirrors
`packet.stream_index == pVideoCtx->videoStreamIndex`; `ok` mirrors
`avcodec_send_packet` succeeding and the packet carrying picture data;
`frame` is an identifier for the decoded picture. -/
structure Packet where
  isVideo : Bool
  ok : Bool
  frame : Nat
deriving DecidableEq, Repr

/-- Program counter of the Decode Worker (`GetVideoFrameThread`):
the priming loop (lines 23-42), the streaming loop (lines 46-67),
and the code after `ended = true` (line 69). -/
inductive WPhase where
  | priming
  | streaming
  | wdone
deriving DecidableEq, Repr

/-- Program counter of the Presentation Loop in `main`:
the `while (!param.filled) Sleep(10)` wait (line 151), the
`while (true)` display loop (lines 153-170), and the code after
`break` (line 172). -/
inductive CPhase where
  | waitFilled
  | inLoop
  | cdone
deriving DecidableEq, Repr

/-- The shared `VideoContext` plus both threads' local state.
`readErr` is the worker-local `int read` being nonzero (EOF or read
error from `av_read_frame`); `dq` is the decoder's internal frame
queue and `lat` its reorder latency (`lat = 0` is a non-buffering
codec: every successfully sent packet yields its frame at once);
`produced` records frames in the order `decoded` was incremented,
`displayed` records the slot contents handed to the window in the
order `read` was incremented. -/
structure Sys where
  cap : Nat
  lat : Nat
  input : List Packet
  dq : List Nat
  readErr : Bool
  decoded : Nat
  readc : Nat
  filled : Bool
  ended : Bool
  windowOpen : Bool
  wpc : WPhase
  cpc : CPhase
  slots : List (Option Nat)
  produced : List Nat
  displayed : List (Option Nat)
deriving DecidableEq, Repr

/-- One `avcodec_send_packet` / `avcodec_receive_frame` exchange, as the
worker performs it: exactly one send and one receive per packet (no
internal drain loop).  A successful send enqueues the packet's picture;
the receive succeeds iff the queue holds more than `lat` pictures and
then dequeues the oldest.  The first component is the frame the `if
(sent == 0 && recieved == 0)` branch stores: present only when both
calls succeeded. -/
def decodeStep (lat : Nat) (dq : List Nat) (p : Packet) : Option Nat × List Nat :=
  let dq1 := if p.ok then dq ++ [p.frame] else dq
  if lat < dq1.length then
    (if p.ok then dq1.head? else none, dq1.tail)
  else
    (none, dq1)

/-- One iteration (or loop exit) of `GetVideoFrameThread`.  The priming
loop writes slot `decoded` (line 36, no modulus), the streaming loop
writes slot `decoded % bufferSize` (line 59) and is guarded by the
unsigned comparison `decoded - read < bufferSize` (line 47).  Reading
past the end of the container sets the local `read` flag and produces
no frame. -/
def workerStep (s : Sys) : Sys :=
  match s.wpc with
  | WPhase.priming =>
    if s.decoded < s.cap ∧ s.readErr = false ∧ s.windowOpen = true then
      match s.input with
      | [] => { s with readErr := true }
      | p :: rest =>
        if p.isVideo then
          match decodeStep s.lat s.dq p with
          | (some f, dq2) =>
            { s with input := rest, dq := dq2,
                     slots := s.slots.set s.decoded (some f),
                     decoded := s.decoded + 1,
                     produced := s.produced ++ [f] }
          | (none, dq2) => { s with input := rest, dq := dq2 }
        else
          { s with input := rest }
    else
      { s with filled := true, wpc := WPhase.streaming }
  | WPhase.streaming =>
    if s.readErr = false ∧ s.windowOpen = true then
      if s.readc ≤ s.decoded ∧ s.decoded - s.readc < s.cap then
        match s.input with
        | [] => { s with readErr := true }
        | p :: rest =>
          if p.isVideo then
            match decodeStep s.lat s.dq p with
            | (some f, dq2) =>
              { s with input := rest, dq := dq2,
                       slots := s.slots.set (s.decoded % s.cap) (some f),
                       decoded := s.decoded + 1,
                       produced := s.produced ++ [f] }
            | (none, dq2) => { s with input := rest, dq := dq2 }
          else
            { s with input := rest }
      else s
    else
      { s with ended := true, wpc := WPhase.wdone }
  | WPhase.wdone => s

/-- One paced tick of the Presentation Loop.  In the filled-wait it only
re-checks `param.filled`.  In the display loop it first drains the event
queue (`close = true` means a `Closed` event arrived, so `window.close()`
runs), then evaluates the break condition
`!window.isOpen() || param.read == param.decoded && param.ended`
(lines 161-163), and otherwise displays slot `read % bufferSize` and
increments `read` (lines 165-168) — with no `read < decoded` guard. -/
def consumerTick (close : Bool) (s : Sys) : Sys :=
  match s.cpc with
  | CPhase.waitFilled => if s.filled then { s with cpc := CPhase.inLoop } else s
  | CPhase.inLoop =>
    let s1 := if close then { s with windowOpen := false } else s
    if s1.windowOpen = false ∨ (s1.readc = s1.decoded ∧ s1.ended = true) then
      { s1 with cpc := CPhase.cdone }
    else
      { s1 with displayed := s1.displayed ++ [s1.slots.getD (s1.readc % s1.cap) none],
                readc := s1.readc + 1 }
  | CPhase.cdone => s

/-- A scheduler decision: run one worker iteration, fire one paced
consumer tick (with the event oracle saying whether a `Closed` event is
pending), or close the display surface from the environment. -/
inductive Choice where
  | worker
  | tick (close : Bool)
  | envClose
deriving DecidableEq, Repr

/-- Interleaved execution of the two threads. -/
def step : Choice → Sys → Sys
  | Choice.worker, s => workerStep s
  | Choice.tick c, s => consumerTick c s
  | Choice.envClose, s => { s with windowOpen := false }

/-- Run a whole schedule. -/
def run (cs : List Choice) (s : Sys) : Sys :=
  cs.foldl (fun t c => step c t) s

/-- The state right after `main` starts the worker thread (line 150):
`VideoContext param = {}` zero-initialises every counter and flag, the
window is open, the worker is at its priming loop and the main thread at
the filled-wait. -/
def init (cap lat : Nat) (input : List Packet) : Sys :=
  { cap := cap, lat := lat, input := input, dq := [], readErr := false,
    decoded := 0, readc := 0, filled := false, ended := false,
    windowOpen := true, wpc := WPhase.priming, cpc := CPhase.waitFilled,
    slots := List.replicate cap none, produced := [], displayed := [] }

/-- Capacity the program computes: `param.bufferSize = (unsigned int)fps`
(line 137, likewise the `new Texture[(size_t)fps]` count on line 125).
The C cast truncates the frame rate toward zero; for the nonnegative
rates streams carry this is the floor.  The rational is the exact value
of `av_q2d(r_frame_rate)`. -/
def bufferSizeOf (fps : ℚ) : Nat :=
  Int.toNat ⌊fps⌋

/-- The spec's words for the same quantity: "the buffer's capacity
equals the rounded frame rate", i.e. `fps` rounded to the nearest
integer. -/
def roundedCapacity (fps : ℚ) : Nat :=
  Int.toNat (round fps)

/-- Initial state with the capacity the program actually computes from
the stream's frame rate. -/
def initFps (fps : ℚ) (lat : Nat) (input : List Packet) : Sys :=
  init (bufferSizeOf fps) lat input

/-- Number of packets of the stream that are video packets and decode
successfully — the decodable frames the container holds. -/
def goodCount (l : List Packet) : Nat :=
  (l.filter (fun p => p.isVideo && p.ok)).length

/-- Condition under which `consumerTick close` displays a frame: the
Presentation Loop is in its display loop, no `Closed` event arrived,
the window is open, and the break condition does not hold. -/
def tickDisplays (close : Bool) (s : Sys) : Bool :=
  decide (s.cpc = CPhase.inLoop) && !close && s.windowOpen &&
    !(decide (s.readc = s.decoded) && s.ended)

/-- A schedule is overread-free when every tick that displays a frame
does so from a state with `read < decoded` — the guard the spec says
"applies here too", which the source does not enforce. -/
def NoOverread : Sys → List Choice → Bool
  | _, [] => true
  | s, Choice.tick b :: cs =>
    (!(tickDisplays b s) || decide (s.readc < s.decoded)) &&
      NoOverread (step (Choice.tick b) s) cs
  | s, c :: cs => NoOverread (step c s) cs

/-- A stream of the container, as `main`'s setup loop inspects it:
whether `codecpar->codec_type == AVMEDIA_TYPE_VIDEO`, whether
`avcodec_find_decoder` succeeds, whether `avcodec_open2` succeeds, and
the exact value of `av_q2d(r_frame_rate)`. -/
structure AVStream where
  isVideo : Bool
  codecKnown : Bool
  openOk : Bool
  r_frame_rate : ℚ
deriving DecidableEq, Repr

/-- A container as the setup phase sees it: whether
`avformat_open_input` and `avformat_find_stream_info` succeed, and the
streams. -/
structure Container where
  openOk : Bool
  infoOk : Bool
  streams : List AVStream
deriving DecidableEq, Repr

/-- The raw string literals `main` throws, plus the out-of-bounds
stream access that C leaves undefined. -/
inductive SetupError where
  | cannotLoadFile
  | cannotFindStreamInfo
  | cannotFindCodec
  | cannotOpenDecoder
  | cannotFindStream
  | outOfBoundsStreamRead
deriving DecidableEq, Repr

/-- Outcome of `main`'s setup phase (lines 82-137). -/
inductive SetupResult where
  | fail (e : SetupError)
  | ok (idx : Nat) (fps : ℚ) (cap : Nat)
deriving DecidableEq, Repr

/-- The stream-scan loop of `main` (lines 94-114): first stream whose
codec type is video, together with its index.  `none` leaves
`videoStreamIndex` at its initial value `(unsigned int)-1`. -/
def findVideoStream : Nat → List AVStream → Option (Nat × AVStream)
  | _, [] => none
  | i, st :: rest => if st.isVideo then some (i, st) else findVideoStream (i + 1) rest

/-- Value of the `unsigned int videoStreamIndex = -1` sentinel. -/
def UINT_MAX : Nat := 2 ^ 32 - 1

/-- Setup phase of `main`, statement for statement in source order.
After the scan loop, line 116 evaluates
`av_q2d(pFormatCtx->streams[videoStreamIndex]->r_frame_rate)` before
line 118 tests `videoStreamIndex == -1`; when no video stream exists
this indexes `streams[]` at `UINT_MAX`, an out-of-bounds read.  `res`
is `unsigned int`, so the `res < 0` test on line 121 can never fire;
it is kept as in the source. -/
def setup (c : Container) : SetupResult :=
  if c.openOk = false then SetupResult.fail SetupError.cannotLoadFile
  else if c.infoOk = false then SetupResult.fail SetupError.cannotFindStreamInfo
  else
    match findVideoStream 0 c.streams with
    | some (i, st) =>
      if st.codecKnown = false then SetupResult.fail SetupError.cannotFindCodec
      else
        let res : Nat := if st.openOk then 0 else UINT_MAX
        let fps := st.r_frame_rate
        if res < 0 then SetupResult.fail SetupError.cannotOpenDecoder
        else SetupResult.ok i fps (bufferSizeOf fps)
    | none =>
      match c.streams[UINT_MAX]? with
      | none => SetupResult.fail SetupError.outOfBoundsStreamRead
      | some _ => SetupResult.fail SetupError.cannotFindStream

/-- A container holding a single audio stream and no video stream. -/
def audioOnly : Container :=
  { openOk := true, infoOk := true,
    streams := [{ isVideo := false, codecKnown := true, openOk := true,
                  r_frame_rate := 30 }] }

/-- The 10-packet stream of the spec's decode-error scenario: packet 3
fails to decode, the other nine decode to frames 1..9. -/
def scenario10 : List Packet :=
  [⟨true, true, 1⟩, ⟨true, true, 2⟩, ⟨true, false, 0⟩, ⟨true, true, 3⟩,
   ⟨true, true, 4⟩, ⟨true, true, 5⟩, ⟨true, true, 6⟩, ⟨true, true, 7⟩,
   ⟨true, true, 8⟩, ⟨true, true, 9⟩]

/-- A schedule that lets the worker prime five slots, then alternates
display ticks and decode iterations until the container is exhausted
and the worker exits. -/
def sched10 : List Choice :=
  [Choice.worker, Choice.worker, Choice.worker, Choice.worker, Choice.worker,
   Choice.worker, Choice.worker,
   Choice.tick false,
   Choice.tick false, Choice.worker, Choice.tick false, Choice.worker,
   Choice.tick false, Choice.worker, Choice.tick false, Choice.worker,
   Choice.tick false, Choice.worker, Choice.worker]

/-- A two-frame stream on a one-slot buffer. -/
def c1input : List Packet := [⟨true, true, 7⟩, ⟨true, true, 8⟩]

/-- Schedule: prime the single slot, enter the display loop, then tick
three times while the worker is starved. -/
def c1trace : List Choice :=
  [Choice.worker, Choice.worker, Choice.tick false, Choice.tick false,
   Choice.tick false]

/-- A two-frame stream on a one-slot buffer, frames 3 and 4. -/
def c2input : List Packet := [⟨true, true, 3⟩, ⟨true, true, 4⟩]

/-- Same starved-producer schedule as `c1trace`. -/
def c2trace : List Choice :=
  [Choice.worker, Choice.worker, Choice.tick false, Choice.tick false,
   Choice.tick false]

/-- Schedule for an immediately-empty stream in which the worker runs to
completion before the Presentation Loop's first paced tick. -/
def c10sched : List Choice :=
  [Choice.worker, Choice.worker, Choice.worker, Choice.tick false,
   Choice.tick false]

/-- Adversarial schedule for the same empty stream: the first paced tick
falls between `filled = true` (line 44) and `ended = true` (line 69). -/
def c10bad : List Choice :=
  [Choice.worker, Choice.worker, Choice.tick false, Choice.tick false]

/-- Three decodable frames for a codec with reorder latency 2. -/
def c3input : List Packet :=
  [⟨true, true, 0⟩, ⟨true, true, 1⟩, ⟨true, true, 2⟩]

/-- Producer/consumer synchronisation invariant: the ring holds, at
slot `i mod capacity` for every pending frame index `read <= i <
decoded`, exactly the i-th produced frame, and the displayed sequence
is precisely the first `read` produced frames. -/
def GoodSync (s : Sys) : Prop :=
  s.slots.length = s.cap ∧
  s.produced.length = s.decoded ∧
  s.readc ≤ s.decoded ∧
  s.displayed = (s.produced.take s.readc).map some ∧
  (∀ i, s.readc ≤ i → i < s.decoded → s.slots.getD (i % s.cap) none = s.produced[i]?)

/-- A two-frame stream whose full playback keeps `read < decoded` at
every display. -/
def c2winput : List Packet := [⟨true, true, 0⟩, ⟨true, true, 1⟩]

/-- An overread-free schedule for `c2winput` on a two-slot buffer. -/
def c2wtrace : List Choice :=
  [Choice.worker, Choice.worker, Choice.worker, Choice.tick false,
   Choice.tick false]

/-- First component of a failed `avcodec_send_packet` exchange: when the
packet does not decode, the `sent == 0 && recieved == 0` branch cannot
store a frame. -/
theorem decodeStep_not_ok (lat : Nat) (dq : List Nat) (p : Packet) (h : p.ok = false) :
    (decodeStep lat dq p).1 = none := by
  unfold decodeStep
  simp only [h, Bool.false_eq_true, if_false]
  split <;> rfl

/-- C1, counterexample: a reachable state of the pipeline (one-slot
buffer, two-frame stream, producer starved after priming) in which the
Presentation Loop has incremented `read` past `decoded` while the stream
has not ended, violating `read <= decoded`. -/
theorem c1_counterexample :
    (run c1trace (init 1 0 c1input)).decoded = 1 ∧
    (run c1trace (init 1 0 c1input)).readc = 2 ∧
    (run c1trace (init 1 0 c1input)).ended = false ∧
    ¬ (run c1trace (init 1 0 c1input)).readc ≤ (run c1trace (init 1 0 c1input)).decoded := by
  decide

/-- C2, counterexample: in a reachable execution the Decode Worker has
produced the single frame 3, yet the Presentation Loop has displayed it
twice — the displayed sequence is not the produced sequence and a frame
repeats, with all counters far below any overflow bound. -/
theorem c2_counterexample :
    (run c2trace (init 1 0 c2input)).produced = [3] ∧
    (run c2trace (init 1 0 c2input)).displayed = [some 3, some 3] := by
  decide

/-- C4, confirmed: the Presentation Loop leaves its display loop exactly
under the break condition of lines 161-163.  If the surface is closed or
`read == decoded && ended` holds at a tick, that tick exits; and any
tick that exits does so in a state where the surface is closed or
`read == decoded && ended` holds. -/
theorem c4_loop_exit_iff :
    (∀ (s : Sys) (c : Bool), s.cpc = CPhase.inLoop →
        (s.windowOpen = false ∨ (s.readc = s.decoded ∧ s.ended = true)) →
        (consumerTick c s).cpc = CPhase.cdone) ∧
    (∀ (s : Sys) (c : Bool), s.cpc = CPhase.inLoop →
        (consumerTick c s).cpc = CPhase.cdone →
        ((consumerTick c s).windowOpen = false ∨
          ((consumerTick c s).readc = (consumerTick c s).decoded ∧
            (consumerTick c s).ended = true))) := by
  constructor
  · intro s c h1 h2
    cases c with
    | true => simp [consumerTick, h1]
    | false =>
      rcases h2 with hw | hre
      · simp [consumerTick, h1, hw]
      · simp [consumerTick, h1, hre.1, hre.2]
  · intro s c h1 h2
    cases c with
    | true =>
      left
      simp only [consumerTick, h1, if_true]
      split <;> rfl
    | false =>
      simp only [consumerTick, h1, Bool.false_eq_true, if_false] at h2 ⊢
      split at h2
      next h =>
        rw [if_pos h]
        simpa using h
      next h =>
        simp at h2

/-- C4, witness: a state with `read == decoded` and `ended` set exits on
the next tick. -/
theorem c4_witness :
    (consumerTick false { init 3 0 [] with cpc := CPhase.inLoop, ended := true }).cpc =
      CPhase.cdone :=
  c4_loop_exit_iff.1 _ false rfl (Or.inr ⟨rfl, rfl⟩)

/-- C8, confirmed: once the surface is closed, a worker still priming
exits its priming loop at the very next condition check (setting
`filled`), exits the streaming loop at the following check (setting
`ended`), and is then terminated — no further step changes its state. -/
theorem c8_cancel_bounded (s : Sys) (hw : s.windowOpen = false)
    (hp : s.wpc = WPhase.priming) (hd : s.decoded < s.cap) :
    (workerStep (workerStep s)).wpc = WPhase.wdone ∧
    (workerStep (workerStep s)).filled = true ∧
    (workerStep (workerStep s)).ended = true ∧
    workerStep (workerStep (workerStep s)) = workerStep (workerStep s) := by
  simp [workerStep, hp, hw]

/-- C8, witness: a concrete priming-phase state with the surface closed
reaches the terminated worker state in two checks. -/
theorem c8_witness :
    (workerStep (workerStep { init 5 0 [] with windowOpen := false })).wpc = WPhase.wdone ∧
    (workerStep (workerStep { init 5 0 [] with windowOpen := false })).filled = true ∧
    (workerStep (workerStep { init 5 0 [] with windowOpen := false })).ended = true ∧
    workerStep (workerStep (workerStep { init 5 0 [] with windowOpen := false })) =
      workerStep (workerStep { init 5 0 [] with windowOpen := false }) :=
  c8_cancel_bounded _ rfl rfl (by decide)

/-- C10, amended: for an immediately-empty stream, under any schedule in
which the worker reaches `ended = true` before the Presentation Loop's
first paced tick, no frame is displayed and the loop exits (`main`
returns 0) with `read = decoded = 0`, `filled` and `ended` both set. -/
theorem c10_amended (cap : Nat) (h : 1 ≤ cap) :
    (run c10sched (init cap 0 [])).cpc = CPhase.cdone ∧
    (run c10sched (init cap 0 [])).displayed = [] ∧
    (run c10sched (init cap 0 [])).readc = 0 ∧
    (run c10sched (init cap 0 [])).decoded = 0 ∧
    (run c10sched (init cap 0 [])).filled = true ∧
    (run c10sched (init cap 0 [])).ended = true := by
  have h0 : 0 < cap := h
  simp [run, c10sched, step, workerStep, consumerTick, init, h0]

/-- C10, witness: the amended claim at capacity 5. -/
theorem c10_amended_witness :
    1 ≤ 5 ∧
    ((run c10sched (init 5 0 [])).cpc = CPhase.cdone ∧
      (run c10sched (init 5 0 [])).displayed = [] ∧
      (run c10sched (init 5 0 [])).readc = 0 ∧
      (run c10sched (init 5 0 [])).decoded = 0 ∧
      (run c10sched (init 5 0 [])).filled = true ∧
      (run c10sched (init 5 0 [])).ended = true) :=
  ⟨by decide, c10_amended 5 (by decide)⟩

/-- C10, counterexample: with the first paced tick scheduled between
`filled = true` and `ended = true`, the loop's break condition fails
(`ended` is still false), so the loop displays the uninitialised slot 0
and increments `read` to 1 although `decoded = 0` — the program does
display a frame and does not terminate in the claimed state. -/
theorem c10_counterexample :
    (run c10bad (init 5 0 [])).displayed = [none] ∧
    (run c10bad (init 5 0 [])).readc = 1 ∧
    (run c10bad (init 5 0 [])).decoded = 0 ∧
    (run c10bad (init 5 0 [])).filled = true ∧
    (run c10bad (init 5 0 [])).ended = false := by
  decide

/-- C7, code bug: on a container with no video stream, setup evaluates
`streams[videoStreamIndex]->r_frame_rate` with the sentinel index
`(unsigned int)-1` — an out-of-bounds read of per-stream data — before
the `videoStreamIndex == -1` check on line 118 can throw `"cannot find
video stream!"`. -/
theorem c7_oob_before_throw :
    setup audioOnly = SetupResult.fail SetupError.outOfBoundsStreamRead ∧
    setup audioOnly ≠ SetupResult.fail SetupError.cannotFindStream := by
  decide

/-- C5, amended: the buffer capacity the program computes is the frame
rate truncated toward zero (its floor, for the nonnegative rates
streams carry), not the nearest integer. -/
theorem c5_amended (q : ℚ) (lat : Nat) (input : List Packet) (h : 0 ≤ q) :
    ((initFps q lat input).cap : ℤ) = ⌊q⌋ := by
  have hnn : (0 : ℤ) ≤ ⌊q⌋ := Int.floor_nonneg.mpr h
  simp [initFps, init, bufferSizeOf, Int.toNat_of_nonneg hnn]

/-- C5, witness: the amended claim at the NTSC rate 29.97. -/
theorem c5_amended_witness :
    (0 : ℚ) ≤ 2997 / 100 ∧
    ((initFps (2997 / 100) 0 []).cap : ℤ) = ⌊(2997 : ℚ) / 100⌋ :=
  ⟨by norm_num, c5_amended (2997 / 100) 0 [] (by norm_num)⟩

/-- C5, counterexample: at frame rate 29.97 the program allocates 29
slots while rounding to the nearest integer gives 30. -/
theorem c5_counterexample :
    (initFps (2997 / 100) 0 []).cap = 29 ∧
    roundedCapacity (2997 / 100) = 30 ∧
    (initFps (2997 / 100) 0 []).cap ≠ roundedCapacity (2997 / 100) := by
  norm_num [initFps, init, bufferSizeOf, roundedCapacity, round_eq]
  decide

/-- C6, confirmed: a video packet whose decode fails is dropped silently
in either loop — the worker only advances its input cursor (and the
decoder queue), leaving `decoded`, `readErr`, `ended` and its phase
untouched, so the loop continues; and on the spec's 10-packet stream
with packet 3 bad, `decoded` still reaches 9 and the worker terminates
normally. -/
theorem c6_skip_and_continue :
    (∀ (s : Sys) (p : Packet) (rest : List Packet),
        s.wpc = WPhase.priming → s.readErr = false → s.windowOpen = true →
        s.decoded < s.cap → s.input = p :: rest → p.isVideo = true → p.ok = false →
        workerStep s = { s with input := rest, dq := (decodeStep s.lat s.dq p).2 }) ∧
    (∀ (s : Sys) (p : Packet) (rest : List Packet),
        s.wpc = WPhase.streaming → s.readErr = false → s.windowOpen = true →
        s.readc ≤ s.decoded → s.decoded - s.readc < s.cap →
        s.input = p :: rest → p.isVideo = true → p.ok = false →
        workerStep s = { s with input := rest, dq := (decodeStep s.lat s.dq p).2 }) ∧
    ((run sched10 (init 5 0 scenario10)).decoded = 9 ∧
      (run sched10 (init 5 0 scenario10)).ended = true ∧
      (run sched10 (init 5 0 scenario10)).wpc = WPhase.wdone ∧
      (run sched10 (init 5 0 scenario10)).produced = [1, 2, 3, 4, 5, 6, 7, 8, 9]) := by
  refine ⟨?_, ?_, by decide⟩
  · intro s p rest hwpc herr hopen hdec hin hvid hok
    have hfst := decodeStep_not_ok s.lat s.dq p hok
    rcases hd : decodeStep s.lat s.dq p with ⟨o, dq2⟩
    rw [hd] at hfst
    simp only at hfst
    subst hfst
    simp [workerStep, hwpc, herr, hopen, hdec, hin, hvid, hd]
  · intro s p rest hwpc herr hopen hr1 hr2 hin hvid hok
    have hfst := decodeStep_not_ok s.lat s.dq p hok
    rcases hd : decodeStep s.lat s.dq p with ⟨o, dq2⟩
    rw [hd] at hfst
    simp only at hfst
    subst hfst
    simp [workerStep, hwpc, herr, hopen, hr1, hr2, hin, hvid, hd]

/-- Fields of the shared context a Presentation-Loop tick never writes:
the tick touches only `windowOpen`, `cpc`, `displayed` and `read`. -/
theorem consumerTick_preserves (b : Bool) (s : Sys) :
    (consumerTick b s).wpc = s.wpc ∧ (consumerTick b s).filled = s.filled ∧
    (consumerTick b s).ended = s.ended ∧ (consumerTick b s).decoded = s.decoded ∧
    (consumerTick b s).cap = s.cap ∧ (consumerTick b s).readErr = s.readErr := by
  unfold consumerTick
  cases b <;> cases hc : s.cpc <;> simp only [hc] <;> (repeat' split) <;> simp

/-- Fields the Decode Worker never writes: a worker step touches only
`input`, `dq`, `readErr`, `slots`, `decoded`, `produced`, `filled`,
`ended` and its phase. -/
theorem workerStep_preserves (s : Sys) :
    (workerStep s).cap = s.cap ∧ (workerStep s).readc = s.readc ∧
    (workerStep s).displayed = s.displayed ∧ (workerStep s).cpc = s.cpc ∧
    (workerStep s).windowOpen = s.windowOpen := by
  unfold workerStep
  cases hw : s.wpc <;> simp only [hw] <;> (repeat' split) <;> simp

/-- Lifecycle-flag invariant of the worker: past the priming loop the
`filled` flag is set, and a terminated worker has set `ended`. -/
theorem workerStep_flags (s : Sys)
    (h1 : s.wpc = WPhase.streaming ∨ s.wpc = WPhase.wdone → s.filled = true)
    (h2 : s.wpc = WPhase.wdone → s.ended = true) :
    ((workerStep s).wpc = WPhase.streaming ∨ (workerStep s).wpc = WPhase.wdone →
      (workerStep s).filled = true) ∧
    ((workerStep s).wpc = WPhase.wdone → (workerStep s).ended = true) := by
  unfold workerStep
  cases hw : s.wpc <;> simp only [hw] <;> (repeat' split) <;>
    constructor <;> intro h <;> simp_all

/-- Lifecycle-flag invariant, preserved by every scheduler step. -/
theorem step_flags (c : Choice) (s : Sys)
    (h1 : s.wpc = WPhase.streaming ∨ s.wpc = WPhase.wdone → s.filled = true)
    (h2 : s.wpc = WPhase.wdone → s.ended = true) :
    ((step c s).wpc = WPhase.streaming ∨ (step c s).wpc = WPhase.wdone →
      (step c s).filled = true) ∧
    ((step c s).wpc = WPhase.wdone → (step c s).ended = true) := by
  cases c with
  | worker => exact workerStep_flags s h1 h2
  | tick b =>
    have hp := consumerTick_preserves b s
    simp only [step]
    refine ⟨fun h => ?_, fun h => ?_⟩
    · rw [hp.1] at h
      rw [hp.2.1]
      exact h1 h
    · rw [hp.1] at h
      rw [hp.2.2.1]
      exact h2 h
  | envClose => exact ⟨h1, h2⟩

/-- Lifecycle-flag invariant, carried along a whole schedule. -/
theorem run_flags (cs : List Choice) : ∀ s : Sys,
    (s.wpc = WPhase.streaming ∨ s.wpc = WPhase.wdone → s.filled = true) →
    (s.wpc = WPhase.wdone → s.ended = true) →
    (((run cs s).wpc = WPhase.streaming ∨ (run cs s).wpc = WPhase.wdone →
        (run cs s).filled = true) ∧
      ((run cs s).wpc = WPhase.wdone → (run cs s).ended = true)) := by
  induction cs with
  | nil => exact fun s h1 h2 => ⟨h1, h2⟩
  | cons c cs ih =>
    intro s h1 h2
    have hs := step_flags c s h1 h2
    exact ih (step c s) hs.1 hs.2

/-- C9, confirmed: whenever the worker has returned — for any exit
cause, end-of-stream, read error, or the window being closed — both
`filled` (set unconditionally at line 44) and `ended` (set
unconditionally at line 69) hold. -/
theorem c9_worker_exit_flags (cap lat : Nat) (input : List Packet) (cs : List Choice)
    (h : (run cs (init cap lat input)).wpc = WPhase.wdone) :
    (run cs (init cap lat input)).filled = true ∧
    (run cs (init cap lat input)).ended = true := by
  have hr := run_flags cs (init cap lat input) (by simp [init]) (by simp [init])
  exact ⟨hr.1 (Or.inr h), hr.2 h⟩

/-- C9, witness: a concrete schedule on an empty stream terminates the
worker with both flags set. -/
theorem c9_witness :
    (run [Choice.worker, Choice.worker, Choice.worker] (init 1 0 [])).filled = true ∧
    (run [Choice.worker, Choice.worker, Choice.worker] (init 1 0 [])).ended = true :=
  c9_worker_exit_flags 1 0 [] [Choice.worker, Choice.worker, Choice.worker] (by decide)

/-- Upper-bound half of the ring invariant, preserved by a worker
step: the worker only produces under `decoded < cap` (priming) or
`decoded - read < cap` (streaming). -/
theorem workerStep_ub (s : Sys) (h : s.decoded ≤ s.readc + s.cap) :
    (workerStep s).decoded ≤ (workerStep s).readc + (workerStep s).cap := by
  unfold workerStep
  cases hw : s.wpc <;> simp only [hw] <;> (repeat' split) <;> simp_all <;> omega

/-- Upper-bound half of the ring invariant, preserved by a tick:
the consumer only moves `read` forward. -/
theorem consumerTick_ub (b : Bool) (s : Sys) (h : s.decoded ≤ s.readc + s.cap) :
    (consumerTick b s).decoded ≤ (consumerTick b s).readc + (consumerTick b s).cap := by
  unfold consumerTick
  cases b <;> cases hc : s.cpc <;> simp only [hc] <;> (repeat' split) <;>
    simp_all <;> omega

/-- Upper-bound half of the ring invariant, carried along a whole
schedule. -/
theorem run_ub (cs : List Choice) : ∀ s : Sys, s.decoded ≤ s.readc + s.cap →
    (run cs s).decoded ≤ (run cs s).readc + (run cs s).cap := by
  induction cs with
  | nil => exact fun s h => h
  | cons c cs ih =>
    intro s h
    refine ih (step c s) ?_
    cases c with
    | worker => exact workerStep_ub s h
    | tick b => exact consumerTick_ub b s h
    | envClose => exact h

/-- C1, amended: in every execution `decoded <= read + capacity` holds
(the producer never overwrites an unread slot), and the worker produces
a frame only from a state with `decoded - read < capacity`; but the
other half of the claimed invariant, `read <= decoded`, is not
maintained by the Presentation Loop (see the counterexample). -/
theorem c1_amended :
    (∀ (cap lat : Nat) (input : List Packet) (cs : List Choice),
        (run cs (init cap lat input)).decoded ≤
          (run cs (init cap lat input)).readc + (run cs (init cap lat input)).cap) ∧
    (∀ s : Sys, (workerStep s).decoded ≠ s.decoded →
        s.decoded - s.readc < s.cap) := by
  constructor
  · intro cap lat input cs
    exact run_ub cs (init cap lat input) (by simp [init])
  · intro s h
    revert h
    unfold workerStep
    cases hw : s.wpc <;> simp only [hw] <;> (repeat' split) <;>
      intro h <;> simp_all <;> omega

/-- C1, witness: the amended invariant evaluated on a concrete
one-packet execution, and the production guard at the initial state. -/
theorem c1_amended_witness :
    ((run [Choice.worker] (init 2 0 [⟨true, true, 5⟩])).decoded ≤
        (run [Choice.worker] (init 2 0 [⟨true, true, 5⟩])).readc +
          (run [Choice.worker] (init 2 0 [⟨true, true, 5⟩])).cap) ∧
    (init 2 0 [⟨true, true, 5⟩]).decoded - (init 2 0 [⟨true, true, 5⟩]).readc <
      (init 2 0 [⟨true, true, 5⟩]).cap :=
  ⟨c1_amended.1 2 0 [⟨true, true, 5⟩] [Choice.worker],
    c1_amended.2 (init 2 0 [⟨true, true, 5⟩]) (by decide)⟩

/-- C6, witness: the priming loop drops a concrete bad packet and
continues. -/
theorem c6_witness :
    workerStep (init 5 0 [⟨true, false, 0⟩]) =
      { (init 5 0 [⟨true, false, 0⟩]) with
          input := []
          dq := (decodeStep 0 [] ⟨true, false, 0⟩).2 } :=
  c6_skip_and_continue.1 (init 5 0 [⟨true, false, 0⟩]) ⟨true, false, 0⟩ []
    rfl rfl rfl (by decide) rfl rfl rfl

/-- Running one more copy of the same choice peels one step off the
front. -/
theorem run_replicate_succ (n : Nat) (c : Choice) (s : Sys) :
    run (List.replicate (n + 1) c) s = run (List.replicate n c) (step c s) := by
  simp [run, List.replicate_succ]

/-- A worker that has left its priming loop and either saw a read error
or faces a full buffer (with the consumer still at `read = 0`) changes
neither `filled` nor `decoded` on further steps, and stays in that
situation. -/
theorem workerStep_stall (s : Sys) (h1 : s.wpc ≠ WPhase.priming)
    (h2 : s.readErr = true ∨ (s.readc = 0 ∧ s.cap ≤ s.decoded)) :
    (workerStep s).filled = s.filled ∧ (workerStep s).decoded = s.decoded ∧
    (workerStep s).wpc ≠ WPhase.priming ∧
    ((workerStep s).readErr = true ∨
      ((workerStep s).readc = 0 ∧ (workerStep s).cap ≤ (workerStep s).decoded)) := by
  unfold workerStep
  cases hw : s.wpc <;> simp_all <;> (repeat' split) <;> simp_all <;> omega

/-- Stalled-worker stability along any number of worker steps. -/
theorem run_worker_stall (n : Nat) : ∀ s : Sys, s.wpc ≠ WPhase.priming →
    (s.readErr = true ∨ (s.readc = 0 ∧ s.cap ≤ s.decoded)) →
    (run (List.replicate n Choice.worker) s).filled = s.filled ∧
    (run (List.replicate n Choice.worker) s).decoded = s.decoded := by
  induction n with
  | zero => exact fun s _ _ => ⟨rfl, rfl⟩
  | succ n ih =>
    intro s h1 h2
    have hs := workerStep_stall s h1 h2
    have hrec := ih (workerStep s) hs.2.2.1 hs.2.2.2
    rw [run_replicate_succ]
    exact ⟨hrec.1.trans hs.1, hrec.2.trans hs.2.1⟩

/-- Result of the priming loop for a zero-latency codec, run from any
priming state with the window open and the consumer still waiting:
after enough worker steps the loop has exited with `filled` set and
`decoded` grown to the buffer size or by every remaining decodable
frame, whichever is smaller. -/
theorem priming_run (input : List Packet) : ∀ s : Sys,
    s.wpc = WPhase.priming → s.readErr = false → s.windowOpen = true →
    s.lat = 0 → s.dq = [] → s.input = input → s.readc = 0 →
    s.decoded ≤ s.cap →
    (run (List.replicate (input.length + 2) Choice.worker) s).filled = true ∧
    (run (List.replicate (input.length + 2) Choice.worker) s).decoded =
      min s.cap (s.decoded + goodCount input) := by
  induction input with
  | nil =>
    intro s hw herr hopen hlat hdq hin hrc hdc
    by_cases hlt : s.decoded < s.cap
    · have e1 : workerStep s = { s with readErr := true } := by
        simp [workerStep, hw, hlt, herr, hopen, hin]
      have e2 : workerStep (workerStep s) =
          { s with readErr := true, filled := true, wpc := WPhase.streaming } := by
        rw [e1]
        simp [workerStep, hw]
      have hrun : run (List.replicate (List.length ([] : List Packet) + 2) Choice.worker) s =
          workerStep (workerStep s) := rfl
      rw [hrun, e2]
      refine ⟨rfl, ?_⟩
      show s.decoded = min s.cap (s.decoded + 0)
      omega
    · have e1 : workerStep s = { s with filled := true, wpc := WPhase.streaming } := by
        simp [workerStep, hw, hlt]
      have hng : ¬ (s.readc ≤ s.decoded ∧ s.decoded - s.readc < s.cap) := by omega
      have e2 : workerStep (workerStep s) =
          { s with filled := true, wpc := WPhase.streaming } := by
        rw [e1]
        simp [workerStep, herr, hopen, hng]
      have hrun : run (List.replicate (List.length ([] : List Packet) + 2) Choice.worker) s =
          workerStep (workerStep s) := rfl
      rw [hrun, e2]
      refine ⟨rfl, ?_⟩
      show s.decoded = min s.cap (s.decoded + 0)
      omega
  | cons p rest ih =>
    intro s hw herr hopen hlat hdq hin hrc hdc
    have hlen : (p :: rest).length + 2 = (rest.length + 2) + 1 := by
      simp [List.length_cons]
    rw [hlen, run_replicate_succ]
    by_cases hlt : s.decoded < s.cap
    · cases hv : p.isVideo with
      | false =>
        have hs : step Choice.worker s = { s with input := rest } := by
          simp [step, workerStep, hw, hlt, herr, hopen, hin, hv]
        rw [hs]
        have hstep := ih { s with input := rest } hw herr hopen hlat hdq rfl hrc hdc
        refine ⟨hstep.1, ?_⟩
        rw [hstep.2]
        show min s.cap (s.decoded + goodCount rest) = min s.cap (s.decoded + goodCount (p :: rest))
        have hgc : goodCount (p :: rest) = goodCount rest := by
          simp [goodCount, hv]
        rw [hgc]
      | true =>
        cases ho : p.ok with
        | false =>
          have hds : decodeStep s.lat s.dq p = (none, []) := by
            simp [decodeStep, ho, hdq, hlat]
          have hs : step Choice.worker s = { s with input := rest, dq := [] } := by
            simp [step, workerStep, hw, hlt, herr, hopen, hin, hv, hds]
          rw [hs]
          have hstep := ih { s with input := rest, dq := [] } hw herr hopen hlat rfl rfl hrc hdc
          refine ⟨hstep.1, ?_⟩
          rw [hstep.2]
          show min s.cap (s.decoded + goodCount rest) =
            min s.cap (s.decoded + goodCount (p :: rest))
          have hgc : goodCount (p :: rest) = goodCount rest := by
            simp [goodCount, hv, ho]
          rw [hgc]
        | true =>
          have hds : decodeStep s.lat s.dq p = (some p.frame, []) := by
            simp [decodeStep, ho, hdq, hlat]
          have hs : step Choice.worker s = { s with
              input := rest
              dq := []
              slots := s.slots.set s.decoded (some p.frame)
              decoded := s.decoded + 1
              produced := s.produced ++ [p.frame] } := by
            simp [step, workerStep, hw, hlt, herr, hopen, hin, hv, hds]
          rw [hs]
          have hstep := ih { s with
              input := rest
              dq := []
              slots := s.slots.set s.decoded (some p.frame)
              decoded := s.decoded + 1
              produced := s.produced ++ [p.frame] } hw herr hopen hlat rfl rfl hrc hlt
          refine ⟨hstep.1, ?_⟩
          rw [hstep.2]
          show min s.cap ((s.decoded + 1) + goodCount rest) =
            min s.cap (s.decoded + goodCount (p :: rest))
          have hgc : goodCount (p :: rest) = goodCount rest + 1 := by
            simp [goodCount, hv, ho]
          rw [hgc]
          omega
    · have hs : step Choice.worker s = { s with filled := true, wpc := WPhase.streaming } := by
        simp [step, workerStep, hw, hlt]
      rw [hs]
      have hstall := run_worker_stall (rest.length + 2)
        { s with filled := true, wpc := WPhase.streaming }
        (by simp) (Or.inr ⟨hrc, show s.cap ≤ s.decoded by omega⟩)
      refine ⟨hstall.1, ?_⟩
      rw [hstall.2]
      show s.decoded = min s.cap (s.decoded + goodCount (p :: rest))
      omega

/-- C3, amended: with the window open and a zero-latency codec (one
frame out per successfully sent packet), the priming phase completes
with `filled = true` and `decoded = min(capacity, totalFramesAvailable)`;
the buffering-codec half of the claim fails because the worker performs
exactly one receive per packet and never drains the decoder (see the
counterexample). -/
theorem c3_amended (cap : Nat) (input : List Packet) :
    (run (List.replicate (input.length + 2) Choice.worker) (init cap 0 input)).filled = true ∧
    (run (List.replicate (input.length + 2) Choice.worker) (init cap 0 input)).decoded =
      min cap (goodCount input) := by
  have h := priming_run input (init cap 0 input) rfl rfl rfl rfl rfl rfl rfl (by simp [init])
  simpa [init] using h

/-- C3, counterexample: a stream of three decodable frames on a codec
with reorder latency 2 finishes priming (capacity 5, so the loop runs to
end-of-stream) with `decoded = 1`, not `min(5, 3) = 3`: the two frames
still buffered in the decoder at end-of-stream are never received. -/
theorem c3_counterexample :
    (run (List.replicate 5 Choice.worker) (init 5 2 c3input)).filled = true ∧
    (run (List.replicate 5 Choice.worker) (init 5 2 c3input)).readErr = true ∧
    (run (List.replicate 5 Choice.worker) (init 5 2 c3input)).decoded = 1 ∧
    goodCount c3input = 3 ∧
    ¬ (run (List.replicate 5 Choice.worker) (init 5 2 c3input)).decoded =
        min 5 (goodCount c3input) := by
  decide

/-- Reading a slot other than the one just written sees the old
contents. -/
theorem getD_set_ne (l : List (Option Nat)) (i j : Nat) (a : Option Nat) (h : i ≠ j) :
    (l.set i a).getD j none = l.getD j none := by
  simp [List.getD, List.getElem?_set_ne h]

/-- Reading back the slot just written sees the new contents. -/
theorem getD_set_self (l : List (Option Nat)) (i : Nat) (a : Option Nat) (h : i < l.length) :
    (l.set i a).getD i none = a := by
  simp [List.getD, List.getElem?_set_self', h]

/-- Two frame indices less than one buffer apart land in distinct
slots. -/
theorem mod_ne_of_sub_lt (a b n : Nat) (h1 : b < a) (h2 : a - b < n) :
    a % n ≠ b % n := by
  intro he
  have hd : n ∣ a - b := (Nat.modEq_iff_dvd' (Nat.le_of_lt h1)).mp he.symm
  have := Nat.le_of_dvd (by omega) hd
  omega

/-- A display tick from a `read < decoded` state preserves the
synchronisation invariant; every other tick leaves its fields alone. -/
theorem tick_goodSync (b : Bool) (s : Sys) (hg : GoodSync s)
    (hguard : tickDisplays b s = true → s.readc < s.decoded) :
    GoodSync (consumerTick b s) := by
  obtain ⟨hlen, hplen, hrd, hdisp, hslot⟩ := hg
  cases hc : s.cpc with
  | waitFilled =>
    by_cases hf : s.filled = true
    · have e : consumerTick b s = { s with cpc := CPhase.inLoop } := by
        simp [consumerTick, hc, hf]
      rw [e]
      exact ⟨hlen, hplen, hrd, hdisp, hslot⟩
    · have e : consumerTick b s = s := by
        simp [consumerTick, hc, hf]
      rw [e]
      exact ⟨hlen, hplen, hrd, hdisp, hslot⟩
  | cdone =>
    have e : consumerTick b s = s := by
      simp [consumerTick, hc]
    rw [e]
    exact ⟨hlen, hplen, hrd, hdisp, hslot⟩
  | inLoop =>
    cases b with
    | true =>
      have e : consumerTick true s =
          { s with windowOpen := false, cpc := CPhase.cdone } := by
        simp [consumerTick, hc]
      rw [e]
      exact ⟨hlen, hplen, hrd, hdisp, hslot⟩
    | false =>
      by_cases hcond : s.windowOpen = false ∨ (s.readc = s.decoded ∧ s.ended = true)
      · have e : consumerTick false s = { s with cpc := CPhase.cdone } := by
          rcases hcond with h | ⟨h1, h2⟩
          · simp [consumerTick, hc, h]
          · simp [consumerTick, hc, h1, h2]
        rw [e]
        exact ⟨hlen, hplen, hrd, hdisp, hslot⟩
      · have hw : s.windowOpen = true := by
          cases hwo : s.windowOpen with
          | false => exact absurd (Or.inl hwo) hcond
          | true => rfl
        have hne : ¬ (s.readc = s.decoded ∧ s.ended = true) := fun hh => hcond (Or.inr hh)
        have htd : tickDisplays false s = true := by
          by_cases hre : s.readc = s.decoded
          · have hen : s.ended = false := by
              cases hend : s.ended with
              | false => rfl
              | true => exact absurd ⟨hre, hend⟩ hne
            simp [tickDisplays, hc, hw, hre, hen]
          · simp [tickDisplays, hc, hw, hre]
        have hr : s.readc < s.decoded := hguard htd
        have e : consumerTick false s = { s with
            displayed := s.displayed ++ [s.slots.getD (s.readc % s.cap) none]
            readc := s.readc + 1 } := by
          simp [consumerTick, hc, hw, hne]
        rw [e]
        refine ⟨hlen, hplen, ?_, ?_, ?_⟩
        · show s.readc + 1 ≤ s.decoded
          omega
        · show s.displayed ++ [s.slots.getD (s.readc % s.cap) none] =
            (s.produced.take (s.readc + 1)).map some
          have hri : s.slots.getD (s.readc % s.cap) none = s.produced[s.readc]? :=
            hslot s.readc le_rfl hr
          have hlt2 : s.readc < s.produced.length := by omega
          rw [List.take_succ, List.map_append, hri, List.getElem?_eq_getElem hlt2]
          rw [hdisp]
          simp
        · show ∀ i, s.readc + 1 ≤ i → i < s.decoded →
            s.slots.getD (i % s.cap) none = s.produced[i]?
          intro i h1 h2
          exact hslot i (by omega) h2

/-- A worker step preserves the synchronisation invariant: frames are
written only into slots the consumer does not own. -/
theorem worker_goodSync (s : Sys) (hg : GoodSync s) : GoodSync (workerStep s) := by
  obtain ⟨hlen, hplen, hrd, hdisp, hslot⟩ := hg
  cases hw : s.wpc with
  | wdone =>
    have e : workerStep s = s := by
      simp [workerStep, hw]
    rw [e]
    exact ⟨hlen, hplen, hrd, hdisp, hslot⟩
  | priming =>
    by_cases hcond : s.decoded < s.cap ∧ s.readErr = false ∧ s.windowOpen = true
    · obtain ⟨hc1, hc2, hc3⟩ := hcond
      cases hin : s.input with
      | nil =>
        have e : workerStep s = { s with readErr := true } := by
          simp [workerStep, hw, hc1, hc2, hc3, hin]
        rw [e]
        exact ⟨hlen, hplen, hrd, hdisp, hslot⟩
      | cons p rest =>
        by_cases hv : p.isVideo = true
        · rcases hds : decodeStep s.lat s.dq p with ⟨o, dq2⟩
          cases o with
          | none =>
            have e : workerStep s = { s with input := rest, dq := dq2 } := by
              simp [workerStep, hw, hc1, hc2, hc3, hin, hv, hds]
            rw [e]
            exact ⟨hlen, hplen, hrd, hdisp, hslot⟩
          | some f =>
            have e : workerStep s = { s with
                input := rest
                dq := dq2
                slots := s.slots.set s.decoded (some f)
                decoded := s.decoded + 1
                produced := s.produced ++ [f] } := by
              simp [workerStep, hw, hc1, hc2, hc3, hin, hv, hds]
            rw [e]
            refine ⟨?_, ?_, ?_, ?_, ?_⟩
            · show (s.slots.set s.decoded (some f)).length = s.cap
              rw [List.length_set]
              exact hlen
            · show (s.produced ++ [f]).length = s.decoded + 1
              simp [hplen]
            · show s.readc ≤ s.decoded + 1
              omega
            · show s.displayed = ((s.produced ++ [f]).take s.readc).map some
              rw [List.take_append_of_le_length (show s.readc ≤ s.produced.length by omega)]
              exact hdisp
            · show ∀ i, s.readc ≤ i → i < s.decoded + 1 →
                (s.slots.set s.decoded (some f)).getD (i % s.cap) none =
                  (s.produced ++ [f])[i]?
              intro i h1 h2
              by_cases he : i = s.decoded
              · rw [he, Nat.mod_eq_of_lt hc1]
                rw [getD_set_self _ _ _ (show s.decoded < s.slots.length by omega)]
                rw [show s.decoded = s.produced.length from hplen.symm]
                exact (List.getElem?_concat_length _ _).symm
              · have hi : i < s.decoded := by omega
                rw [Nat.mod_eq_of_lt (show i < s.cap by omega)]
                rw [getD_set_ne _ _ _ _ (show s.decoded ≠ i from fun hh => he hh.symm)]
                have hsl := hslot i h1 hi
                rw [Nat.mod_eq_of_lt (show i < s.cap by omega)] at hsl
                rw [hsl]
                simp [List.getElem?_append, show i < s.produced.length by omega]
        · have e : workerStep s = { s with input := rest } := by
            simp [workerStep, hw, hc1, hc2, hc3, hin, hv]
          rw [e]
          exact ⟨hlen, hplen, hrd, hdisp, hslot⟩
    · have e : workerStep s = { s with filled := true, wpc := WPhase.streaming } := by
        simp only [workerStep, hw]
        rw [if_neg hcond]
      rw [e]
      exact ⟨hlen, hplen, hrd, hdisp, hslot⟩
  | streaming =>
    by_cases houter : s.readErr = false ∧ s.windowOpen = true
    · obtain ⟨ho1, ho2⟩ := houter
      by_cases hinner : s.readc ≤ s.decoded ∧ s.decoded - s.readc < s.cap
      · obtain ⟨hra, hrb⟩ := hinner
        cases hin : s.input with
        | nil =>
          have e : workerStep s = { s with readErr := true } := by
            simp [workerStep, hw, ho1, ho2, hra, hrb, hin]
          rw [e]
          exact ⟨hlen, hplen, hrd, hdisp, hslot⟩
        | cons p rest =>
          by_cases hv : p.isVideo = true
          · rcases hds : decodeStep s.lat s.dq p with ⟨o, dq2⟩
            cases o with
            | none =>
              have e : workerStep s = { s with input := rest, dq := dq2 } := by
                simp [workerStep, hw, ho1, ho2, hra, hrb, hin, hv, hds]
              rw [e]
              exact ⟨hlen, hplen, hrd, hdisp, hslot⟩
            | some f =>
              have hcap0 : 0 < s.cap := by omega
              have e : workerStep s = { s with
                  input := rest
                  dq := dq2
                  slots := s.slots.set (s.decoded % s.cap) (some f)
                  decoded := s.decoded + 1
                  produced := s.produced ++ [f] } := by
                simp [workerStep, hw, ho1, ho2, hra, hrb, hin, hv, hds]
              rw [e]
              refine ⟨?_, ?_, ?_, ?_, ?_⟩
              · show (s.slots.set (s.decoded % s.cap) (some f)).length = s.cap
                rw [List.length_set]
                exact hlen
              · show (s.produced ++ [f]).length = s.decoded + 1
                simp [hplen]
              · show s.readc ≤ s.decoded + 1
                omega
              · show s.displayed = ((s.produced ++ [f]).take s.readc).map some
                rw [List.take_append_of_le_length (show s.readc ≤ s.produced.length by omega)]
                exact hdisp
              · show ∀ i, s.readc ≤ i → i < s.decoded + 1 →
                  (s.slots.set (s.decoded % s.cap) (some f)).getD (i % s.cap) none =
                    (s.produced ++ [f])[i]?
                intro i h1 h2
                by_cases he : i = s.decoded
                · rw [he]
                  rw [getD_set_self _ _ _
                    (show s.decoded % s.cap < s.slots.length by
                      rw [hlen]; exact Nat.mod_lt _ hcap0)]
                  rw [show s.decoded = s.produced.length from hplen.symm]
                  exact (List.getElem?_concat_length _ _).symm
                · have hi : i < s.decoded := by omega
                  have hne2 : s.decoded % s.cap ≠ i % s.cap :=
                    mod_ne_of_sub_lt s.decoded i s.cap hi (by omega)
                  rw [getD_set_ne _ _ _ _ hne2]
                  rw [hslot i h1 hi]
                  simp [List.getElem?_append, show i < s.produced.length by omega]
          · have e : workerStep s = { s with input := rest } := by
              simp [workerStep, hw, ho1, ho2, hra, hrb, hin, hv]
            rw [e]
            exact ⟨hlen, hplen, hrd, hdisp, hslot⟩
      · have e : workerStep s = s := by
          simp only [workerStep, hw]
          rw [if_pos ⟨ho1, ho2⟩, if_neg hinner]
        rw [e]
        exact ⟨hlen, hplen, hrd, hdisp, hslot⟩
    · have e : workerStep s = { s with ended := true, wpc := WPhase.wdone } := by
        simp only [workerStep, hw]
        rw [if_neg houter]
      rw [e]
      exact ⟨hlen, hplen, hrd, hdisp, hslot⟩

/-- The synchronisation invariant carried along any overread-free
schedule. -/
theorem run_goodSync (cs : List Choice) : ∀ s : Sys, NoOverread s cs = true →
    GoodSync s → GoodSync (run cs s) := by
  induction cs with
  | nil => exact fun s _ hg => hg
  | cons c cs ih =>
    intro s hno hg
    cases c with
    | worker => exact ih (step Choice.worker s) hno (worker_goodSync s hg)
    | envClose => exact ih (step Choice.envClose s) hno hg
    | tick b =>
      have hno2 : ((!(tickDisplays b s) || decide (s.readc < s.decoded)) &&
          NoOverread (step (Choice.tick b) s) cs) = true := hno
      rw [Bool.and_eq_true] at hno2
      have hguard : tickDisplays b s = true → s.readc < s.decoded := by
        intro htd
        have h1 := hno2.1
        rw [htd] at h1
        simpa using h1
      exact ih (step (Choice.tick b) s) hno2.2 (tick_goodSync b s hg hguard)

/-- C2, amended: in every execution in which the Presentation Loop never
displays from a caught-up state (every display happens with
`read < decoded` — the guard the spec requires but the code omits), the
displayed sequence is exactly the first `read` produced frames in
production order, one frame per `read` increment, with no skip and no
repeat; without that restriction the property fails (see the
counterexample). -/
theorem c2_amended (cap lat : Nat) (input : List Packet) (cs : List Choice)
    (h : NoOverread (init cap lat input) cs = true) :
    (run cs (init cap lat input)).displayed =
      ((run cs (init cap lat input)).produced.take
        (run cs (init cap lat input)).readc).map some ∧
    (run cs (init cap lat input)).readc ≤ (run cs (init cap lat input)).decoded ∧
    (run cs (init cap lat input)).produced.length = (run cs (init cap lat input)).decoded := by
  have hg0 : GoodSync (init cap lat input) := by
    refine ⟨?_, rfl, le_rfl, rfl, ?_⟩
    · simp [init]
    · intro i h1 h2
      exact absurd h2 (Nat.not_lt_zero i)
  have hg := run_goodSync cs (init cap lat input) h hg0
  exact ⟨hg.2.2.2.1, hg.2.2.1, hg.2.1⟩

/-- C2, witness: a complete two-frame playback under an overread-free
schedule displays exactly the produced prefix. -/
theorem c2_amended_witness :
    NoOverread (init 2 0 c2winput) c2wtrace = true ∧
    ((run c2wtrace (init 2 0 c2winput)).displayed =
        ((run c2wtrace (init 2 0 c2winput)).produced.take
          (run c2wtrace (init 2 0 c2winput)).readc).map some ∧
      (run c2wtrace (init 2 0 c2winput)).readc ≤ (run c2wtrace (init 2 0 c2winput)).decoded ∧
      (run c2wtrace (init 2 0 c2winput)).produced.length =
        (run c2wtrace (init 2 0 c2winput)).decoded) :=
  ⟨by decide, c2_amended 2 0 c2winput c2wtrace (by decide)⟩
